import Mathlib

/-!
Shallow embedding of the Kale-Prediction contract
(src/contracts/kale_prediction/src/lib.rs, soroban-sdk 22.0.x) together
with proofs about its round lifecycle, pool accounting and settlement
logic.

Modelling conventions:
* addresses are natural numbers; the contract custody address
  (env.current_contract_address()) is a fixed constant;
* ledger sequence numbers (env.ledger().sequence()) are passed to each
  operation as an explicit tick argument;
* i128 pool and stake amounts are modelled as unbounded integers (the
  spec treats them as wide enough to avoid overflow on summed stakes);
* Rust i128 division truncates toward zero, so the claim payout uses
  Int.tdiv; the division-by-zero trap is modelled explicitly;
* each contract entry point is a pure function from the durable state
  and its arguments to either a contract error or the new state plus
  the list of token transfers it performed, in order.
-/

namespace KalePrediction

/-- Account / contract addresses, abstracted as natural numbers. -/
abbrev Addr := Nat

/-- The contract custody address (env.current_contract_address()). -/
def contractAddress : Addr := 0

/-- Ledgers after finality_ledger before refunds become possible
(const GRACE_LEDGERS: u32 = 100). -/
def GRACE_LEDGERS : Nat := 100

/-- Betting side (pub enum Side). -/
inductive Side where
  | Lower
  | Higher
deriving DecidableEq

/-- Round record (pub struct Round). -/
structure Round where
  predicted_count : Nat
  deadline_ledger : Nat
  finality_ledger : Nat
  high_pool : Int
  low_pool : Int
  resolved : Bool
  winning_side : Side
  actual_count : Nat
deriving DecidableEq

/-- Stake record (pub struct Stake). -/
structure Stake where
  amount : Int
  side : Side
deriving DecidableEq

/-- Contract error enum (pub enum Error). The source defines exactly
these ten variants. -/
inductive Error where
  | Unauthorized
  | AlreadyInitialised
  | RoundNotFound
  | BettingClosed
  | AlreadyResolved
  | TooEarly
  | NotResolved
  | AlreadyClaimed
  | RefundNotAvailable
  | ZeroAmount
deriving DecidableEq

/-- Outcome of a failing call: a contract error (panic_with_error) or a
host trap from i128 division by zero in the claim payout. -/
inductive Fail where
  | err : Error → Fail
  | divByZero : Fail
deriving DecidableEq

/-- A token transfer (from, to, amount) performed via the token client. -/
abbrev Transfer := Addr × Addr × Int

/-- Durable contract state after construction: the stored admin address,
the NextRoundId counter and the persistent Round / Stake records. -/
structure ContractState where
  admin : Addr
  nextRoundId : Nat
  rounds : Nat → Option Round
  stakes : Nat → Addr → Option Stake

/-- State right after __constructor ran: counter at 0, no records. -/
def initState (admin : Addr) : ContractState :=
  { admin := admin
    nextRoundId := 0
    rounds := fun _ => none
    stakes := fun _ _ => none }

/-- KalePrediction::start_round. Checks the caller against the stored
admin, rejects deadline_ledger >= finality_ledger with TooEarly (the
source reuses that variant for the bad window), allocates the next round
id and stores a fresh round with zero pools. Returns the new round id. -/
def startRound (s : ContractState) (admin : Addr)
    (predicted_count deadline_ledger finality_ledger : Nat) :
    Except Fail (ContractState × Nat) :=
  if admin ≠ s.admin then Except.error (Fail.err Error.Unauthorized)
  else if finality_ledger ≤ deadline_ledger then Except.error (Fail.err Error.TooEarly)
  else
    Except.ok
      ({ s with
          nextRoundId := s.nextRoundId + 1
          rounds := fun rid =>
            if rid = s.nextRoundId then
              some { predicted_count := predicted_count
                     deadline_ledger := deadline_ledger
                     finality_ledger := finality_ledger
                     high_pool := 0
                     low_pool := 0
                     resolved := false
                     winning_side := Side.Lower
                     actual_count := 0 }
            else s.rounds rid }
        , s.nextRoundId)

/-- Pool update in KalePrediction::bet (match side { ... }). -/
def addToPool (r : Round) (side : Side) (amount : Int) : Round :=
  match side with
  | Side.Higher => { r with high_pool := r.high_pool + amount }
  | Side.Lower => { r with low_pool := r.low_pool + amount }

/-- Accumulated amount on stake upsert in KalePrediction::bet
(.map(|s| s.amount + amount).unwrap_or(amount)). -/
def upsertAmount (old : Option Stake) (amount : Int) : Int :=
  match old with
  | some st => st.amount + amount
  | none => amount

/-- KalePrediction::bet. Rejects non-positive amounts, missing rounds
and ticks past the deadline; then transfers the amount into custody,
adds it to the chosen side pool and upserts the stake record, storing
the side given by this bet. -/
def bet (s : ContractState) (player : Addr) (round_id : Nat) (side : Side)
    (amount : Int) (tick : Nat) : Except Fail (ContractState × List Transfer) :=
  if amount ≤ 0 then Except.error (Fail.err Error.ZeroAmount)
  else
    match s.rounds round_id with
    | none => Except.error (Fail.err Error.RoundNotFound)
    | some round =>
      if round.deadline_ledger < tick then Except.error (Fail.err Error.BettingClosed)
      else
        Except.ok
          ({ s with
              rounds := fun rid =>
                if rid = round_id then some (addToPool round side amount)
                else s.rounds rid
              stakes := fun rid p =>
                if rid = round_id ∧ p = player then
                  some { amount := upsertAmount (s.stakes round_id player) amount
                         side := side }
                else s.stakes rid p }
            , [(player, contractAddress, amount)])

/-- KalePrediction::resolve_round. Admin-only; requires the round to
exist, the tick to have reached finality_ledger and the round to be
unresolved; then records the outcome with the Higher side winning
exactly when actual_count > predicted_count. -/
def resolveRound (s : ContractState) (admin : Addr) (round_id : Nat)
    (actual_count : Nat) (tick : Nat) : Except Fail ContractState :=
  if admin ≠ s.admin then Except.error (Fail.err Error.Unauthorized)
  else
    match s.rounds round_id with
    | none => Except.error (Fail.err Error.RoundNotFound)
    | some round =>
      if tick < round.finality_ledger then Except.error (Fail.err Error.TooEarly)
      else if round.resolved then Except.error (Fail.err Error.AlreadyResolved)
      else
        Except.ok
          { s with
              rounds := fun rid =>
                if rid = round_id then
                  some { round with
                          winning_side :=
                            if round.predicted_count < actual_count then Side.Higher
                            else Side.Lower
                          actual_count := actual_count
                          resolved := true }
                else s.rounds rid }

/-- Winning side pool selection in KalePrediction::claim
(match round.winning_side { ... }). -/
def sidePool (r : Round) (side : Side) : Int :=
  match side with
  | Side.Higher => r.high_pool
  | Side.Lower => r.low_pool

/-- KalePrediction::claim. Requires the round to exist and be resolved
and a stake record to exist (its absence fails with AlreadyClaimed).
The stake record is removed before any transfer; a losing stake gets
nothing, a winning stake gets amount * total_pool / side_pool with
truncating i128 division (a zero divisor traps). -/
def claim (s : ContractState) (player : Addr) (round_id : Nat) :
    Except Fail (ContractState × List Transfer) :=
  match s.rounds round_id with
  | none => Except.error (Fail.err Error.RoundNotFound)
  | some round =>
    if round.resolved = false then Except.error (Fail.err Error.NotResolved)
    else
      match s.stakes round_id player with
      | none => Except.error (Fail.err Error.AlreadyClaimed)
      | some stake =>
        if stake.side ≠ round.winning_side then
          Except.ok
            ({ s with
                stakes := fun rid p =>
                  if rid = round_id ∧ p = player then none else s.stakes rid p }
              , [])
        else if sidePool round round.winning_side = 0 then Except.error Fail.divByZero
        else
          Except.ok
            ({ s with
                stakes := fun rid p =>
                  if rid = round_id ∧ p = player then none else s.stakes rid p }
              , [(contractAddress, player,
                  Int.tdiv (stake.amount * (round.high_pool + round.low_pool))
                    (sidePool round round.winning_side))])

/-- KalePrediction::refund. Requires the round to exist and be
unresolved, the tick to be strictly past finality_ledger +
GRACE_LEDGERS, and a stake record to exist (its absence fails with
AlreadyClaimed). The stake record is removed first, then the original
accumulated stake amount is transferred back. -/
def refund (s : ContractState) (player : Addr) (round_id : Nat) (tick : Nat) :
    Except Fail (ContractState × List Transfer) :=
  match s.rounds round_id with
  | none => Except.error (Fail.err Error.RoundNotFound)
  | some round =>
    if round.resolved then Except.error (Fail.err Error.AlreadyResolved)
    else if tick ≤ round.finality_ledger + GRACE_LEDGERS then
      Except.error (Fail.err Error.RefundNotAvailable)
    else
      match s.stakes round_id player with
      | none => Except.error (Fail.err Error.AlreadyClaimed)
      | some stake =>
        Except.ok
          ({ s with
              stakes := fun rid p =>
                if rid = round_id ∧ p = player then none else s.stakes rid p }
            , [(contractAddress, player, stake.amount)])

/-- Resulting state of a start_round call, or d when it failed. -/
def stateOfStart (x : Except Fail (ContractState × Nat)) (d : ContractState) :
    ContractState :=
  match x with
  | Except.ok y => y.1
  | Except.error _ => d

/-- Resulting state of a bet / claim / refund call, or d when it failed. -/
def stateOfTx (x : Except Fail (ContractState × List Transfer))
    (d : ContractState) : ContractState :=
  match x with
  | Except.ok y => y.1
  | Except.error _ => d

/-- Resulting state of a resolve_round call, or d when it failed. -/
def stateOfResolve (x : Except Fail ContractState) (d : ContractState) :
    ContractState :=
  match x with
  | Except.ok y => y
  | Except.error _ => d

/-- Transfers performed by a bet / claim / refund call (none on failure). -/
def resultTransfers (x : Except Fail (ContractState × List Transfer)) :
    List Transfer :=
  match x with
  | Except.ok y => y.2
  | Except.error _ => []

/-- Error of a failed call, if any. -/
def resultFail (x : Except Fail (ContractState × List Transfer)) : Option Fail :=
  match x with
  | Except.ok _ => none
  | Except.error f => some f

/-- Total amount moved by a list of transfers. -/
def sumTransfers (tr : List Transfer) : Int :=
  (tr.map (fun t => t.2.2)).sum

/-- Amount of the stored stake of player p in round rid (0 when absent). -/
def stakeAmt (s : ContractState) (rid : Nat) (p : Addr) : Int :=
  match s.stakes rid p with
  | some st => st.amount
  | none => 0

/-- Payout the winning branch of claim computes for a stake of the given
amount: amount * total_pool / side_pool with truncating division. -/
def payoutOf (r : Round) (amount : Int) : Int :=
  Int.tdiv (amount * (r.high_pool + r.low_pool)) (sidePool r r.winning_side)

/-- Run claim for each listed player in order, keeping the state of each
successful call and adding up every amount those calls transferred. -/
def claimAll (ps : List Addr) (s : ContractState) (round_id : Nat) :
    ContractState × Int :=
  match ps with
  | [] => (s, 0)
  | p :: rest =>
    match claim s p round_id with
    | Except.ok y =>
      let next := claimAll rest y.1 round_id
      (next.1, sumTransfers y.2 + next.2)
    | Except.error _ => claimAll rest s round_id

/-- One successful contract call, relating the state before to the state
after. -/
inductive Step : ContractState → ContractState → Prop where
  | startStep (s s' : ContractState) (a : Addr) (pc dl fl rid : Nat)
      (h : startRound s a pc dl fl = Except.ok (s', rid)) : Step s s'
  | betStep (s s' : ContractState) (p : Addr) (rid : Nat) (side : Side)
      (amount : Int) (tick : Nat) (tr : List Transfer)
      (h : bet s p rid side amount tick = Except.ok (s', tr)) : Step s s'
  | resolveStep (s s' : ContractState) (a : Addr) (rid ac tick : Nat)
      (h : resolveRound s a rid ac tick = Except.ok s') : Step s s'
  | claimStep (s s' : ContractState) (p : Addr) (rid : Nat) (tr : List Transfer)
      (h : claim s p rid = Except.ok (s', tr)) : Step s s'
  | refundStep (s s' : ContractState) (p : Addr) (rid tick : Nat) (tr : List Transfer)
      (h : refund s p rid tick = Except.ok (s', tr)) : Step s s'

/-- States reachable from a freshly constructed contract by successful
calls. -/
inductive Reachable : ContractState → Prop where
  | init (a : Addr) : Reachable (initState a)
  | step (s s' : ContractState) (hs : Reachable s) (h : Step s s') : Reachable s'

/-- Zero or more successful calls. -/
abbrev Steps : ContractState → ContractState → Prop :=
  Relation.ReflTransGen Step

/-- State invariant maintained by every contract call: round ids are
below the counter, pools are non-negative, and every stake record points
at an existing round, has a positive amount, and its side pool is
positive. -/
def Inv (s : ContractState) : Prop :=
  (∀ rid r, s.rounds rid = some r →
    rid < s.nextRoundId ∧ 0 ≤ r.high_pool ∧ 0 ≤ r.low_pool) ∧
  (∀ rid p st, s.stakes rid p = some st →
    ∃ r, s.rounds rid = some r ∧ 0 < st.amount ∧ 0 < sidePool r st.side)

/-!
Two concrete executions used to instantiate the theorems below.

Trace A (admin 0, player 1): a round with predicted_count 1,
deadline_ledger 1, finality_ledger 2 is started; the player bets 1 on
Higher at tick 0; the admin resolves at tick 2 with actual_count 5, so
Higher wins; the player then claims.

Trace B (admin 0, player 1): a round with predicted_count 10,
deadline_ledger 5, finality_ledger 6 is started; the same player bets 1
on Higher at tick 3 and then 1 on Lower at tick 4; the admin resolves at
tick 6 with actual_count 3, so Lower wins.
-/

/-- Trace A initial state. -/
def aS0 : ContractState := initState 0

/-- Trace A after start_round. -/
def aS1 : ContractState := stateOfStart (startRound aS0 0 1 1 2) aS0

/-- Trace A after the bet of 1 on Higher. -/
def aS2 : ContractState := stateOfTx (bet aS1 1 0 Side.Higher 1 0) aS1

/-- Trace A after resolution (Higher wins). -/
def aS3 : ContractState := stateOfResolve (resolveRound aS2 0 0 5 2) aS2

/-- Trace A after the winning claim. -/
def aS4 : ContractState := stateOfTx (claim aS3 1 0) aS3

/-- Trace B initial state. -/
def bS0 : ContractState := initState 0

/-- Trace B after start_round. -/
def bS1 : ContractState := stateOfStart (startRound bS0 0 10 5 6) bS0

/-- Trace B after the bet of 1 on Higher. -/
def bS2 : ContractState := stateOfTx (bet bS1 1 0 Side.Higher 1 3) bS1

/-- Trace B after the second bet, 1 on Lower, by the same player. -/
def bS3 : ContractState := stateOfTx (bet bS2 1 0 Side.Lower 1 4) bS2

/-- Trace B after resolution (actual 3 is not above predicted 10, so
Lower wins). -/
def bS4 : ContractState := stateOfResolve (resolveRound bS3 0 0 3 6) bS3

/-- A freshly constructed contract satisfies the invariant. -/
theorem inv_init (a : Addr) : Inv (initState a) := by
  constructor
  · intro rid r h
    simp [initState] at h
  · intro rid p st h
    simp [initState] at h

/-- start_round preserves the invariant. -/
theorem inv_start (s s' : ContractState) (a : Addr) (pc dl fl rid : Nat)
    (hinv : Inv s) (h : startRound s a pc dl fl = Except.ok (s', rid)) : Inv s' := by
  unfold startRound at h
  split at h
  · exact Except.noConfusion h
  split at h
  · exact Except.noConfusion h
  simp only [Except.ok.injEq, Prod.mk.injEq] at h
  obtain ⟨hs', -⟩ := h
  subst hs'
  obtain ⟨hround, hstake⟩ := hinv
  constructor
  · intro i r hi
    simp only at hi
    by_cases hik : i = s.nextRoundId
    · subst hik
      rw [if_pos rfl, Option.some.injEq] at hi
      subst hi
      simp
    · rw [if_neg hik] at hi
      have hprev := hround i r hi
      exact ⟨Nat.lt_succ_of_lt hprev.1, hprev.2.1, hprev.2.2⟩
  · intro i p st hi
    simp only at hi
    obtain ⟨r, hr, hamt, hsp⟩ := hstake i p st hi
    refine ⟨r, ?_, hamt, hsp⟩
    have hlt := (hround i r hr).1
    simp only
    rw [if_neg (Nat.ne_of_lt hlt)]
    exact hr

/-- Adding a positive amount keeps both pools non-negative. -/
theorem addToPool_nonneg (r : Round) (side : Side) (amount : Int)
    (hhp : 0 ≤ r.high_pool) (hlp : 0 ≤ r.low_pool) (hamt : 0 < amount) :
    0 ≤ (addToPool r side amount).high_pool ∧ 0 ≤ (addToPool r side amount).low_pool := by
  cases side <;> simp [addToPool] <;> omega

/-- Adding to a pool never shrinks any side pool. -/
theorem sidePool_addToPool_ge (r : Round) (side side' : Side) (amount : Int)
    (hamt : 0 < amount) :
    sidePool r side' ≤ sidePool (addToPool r side amount) side' := by
  cases side <;> cases side' <;> simp [addToPool, sidePool] <;> omega

/-- The pool a bet just paid into is positive afterwards. -/
theorem sidePool_addToPool_pos (r : Round) (side : Side) (amount : Int)
    (hamt : 0 < amount) (hhp : 0 ≤ r.high_pool) (hlp : 0 ≤ r.low_pool) :
    0 < sidePool (addToPool r side amount) side := by
  cases side <;> simp [addToPool, sidePool] <;> omega

/-- bet preserves the invariant. -/
theorem inv_bet (s s' : ContractState) (p : Addr) (rid0 : Nat) (side : Side)
    (amount : Int) (tick : Nat) (tr : List Transfer)
    (hinv : Inv s) (h : bet s p rid0 side amount tick = Except.ok (s', tr)) : Inv s' := by
  unfold bet at h
  split at h
  · exact Except.noConfusion h
  next hamt =>
    split at h
    · exact Except.noConfusion h
    next round hfound =>
      split at h
      · exact Except.noConfusion h
      simp only [Except.ok.injEq, Prod.mk.injEq] at h
      obtain ⟨hs', -⟩ := h
      subst hs'
      have hamt' : 0 < amount := by omega
      obtain ⟨hround, hstake⟩ := hinv
      have hr0 := hround rid0 round hfound
      constructor
      · intro i r hi
        simp only at hi
        by_cases hik : i = rid0
        · subst hik
          rw [if_pos rfl, Option.some.injEq] at hi
          subst hi
          have := addToPool_nonneg round side amount hr0.2.1 hr0.2.2 hamt'
          exact ⟨hr0.1, this.1, this.2⟩
        · rw [if_neg hik] at hi
          exact hround i r hi
      · intro i q st hi
        simp only at hi
        by_cases hik : i = rid0 ∧ q = p
        · rw [if_pos hik, Option.some.injEq] at hi
          subst hi
          obtain ⟨hik1, -⟩ := hik
          subst hik1
          refine ⟨addToPool round side amount, ?_, ?_, ?_⟩
          · simp
          · show 0 < upsertAmount (s.stakes i p) amount
            unfold upsertAmount
            split
            next st0 hst0 =>
              obtain ⟨r1, -, hpos1, -⟩ := hstake i p st0 hst0
              omega
            next => omega
          · show 0 < sidePool (addToPool round side amount) side
            exact sidePool_addToPool_pos round side amount hamt' hr0.2.1 hr0.2.2
        · rw [if_neg hik] at hi
          obtain ⟨r, hr, hpos, hsp⟩ := hstake i q st hi
          by_cases hik2 : i = rid0
          · subst hik2
            rw [hfound, Option.some.injEq] at hr
            subst hr
            refine ⟨addToPool round side amount, ?_, hpos, ?_⟩
            · simp
            · exact lt_of_lt_of_le hsp (sidePool_addToPool_ge round side st.side amount hamt')
          · refine ⟨r, ?_, hpos, hsp⟩
            show (if i = rid0 then some (addToPool round side amount) else s.rounds i) = some r
            rw [if_neg hik2]
            exact hr

/-- Removing a stake record preserves the invariant. -/
theorem inv_removeStake (s : ContractState) (rid0 : Nat) (p : Addr) (hinv : Inv s) :
    Inv { s with stakes := fun rid q =>
            if rid = rid0 ∧ q = p then none else s.stakes rid q } := by
  obtain ⟨hround, hstake⟩ := hinv
  constructor
  · intro i r hi
    exact hround i r hi
  · intro i q st hi
    simp only at hi
    by_cases hik : i = rid0 ∧ q = p
    · rw [if_pos hik] at hi
      exact Option.noConfusion hi
    · rw [if_neg hik] at hi
      exact hstake i q st hi

/-- resolve_round preserves the invariant. -/
theorem inv_resolve (s s' : ContractState) (a : Addr) (rid0 ac tick : Nat)
    (hinv : Inv s) (h : resolveRound s a rid0 ac tick = Except.ok s') : Inv s' := by
  unfold resolveRound at h
  split at h
  · exact Except.noConfusion h
  split at h
  · exact Except.noConfusion h
  next round hfound =>
    split at h
    · exact Except.noConfusion h
    split at h
    · exact Except.noConfusion h
    simp only [Except.ok.injEq] at h
    subst h
    obtain ⟨hround, hstake⟩ := hinv
    constructor
    · intro i r hi
      simp only at hi
      by_cases hik : i = rid0
      · subst hik
        rw [if_pos rfl, Option.some.injEq] at hi
        subst hi
        have hprev := hround i round hfound
        exact ⟨hprev.1, hprev.2.1, hprev.2.2⟩
      · rw [if_neg hik] at hi
        exact hround i r hi
    · intro i q st hi
      obtain ⟨r, hr, hpos, hsp⟩ := hstake i q st hi
      by_cases hik : i = rid0
      · subst hik
        rw [hfound, Option.some.injEq] at hr
        subst hr
        refine ⟨{ round with
                   winning_side :=
                     if round.predicted_count < ac then Side.Higher else Side.Lower
                   actual_count := ac
                   resolved := true }, ?_, hpos, ?_⟩
        · simp
        · cases h2 : st.side <;> rw [h2] at hsp <;> simpa [sidePool] using hsp
      · refine ⟨r, ?_, hpos, hsp⟩
        show (if i = rid0 then _ else s.rounds i) = some r
        rw [if_neg hik]
        exact hr

/-- claim only ever shrinks the stake table and keeps rounds intact. -/
theorem claim_ok_shape (s s' : ContractState) (p : Addr) (rid0 : Nat)
    (tr : List Transfer) (h : claim s p rid0 = Except.ok (s', tr)) :
    s' = { s with stakes := fun rid q =>
             if rid = rid0 ∧ q = p then none else s.stakes rid q } := by
  unfold claim at h
  split at h
  · exact Except.noConfusion h
  split at h
  · exact Except.noConfusion h
  split at h
  · exact Except.noConfusion h
  split at h
  · simp only [Except.ok.injEq, Prod.mk.injEq] at h
    exact h.1.symm
  split at h
  · exact Except.noConfusion h
  · simp only [Except.ok.injEq, Prod.mk.injEq] at h
    exact h.1.symm

/-- refund only ever shrinks the stake table and keeps rounds intact. -/
theorem refund_ok_shape (s s' : ContractState) (p : Addr) (rid0 tick : Nat)
    (tr : List Transfer) (h : refund s p rid0 tick = Except.ok (s', tr)) :
    s' = { s with stakes := fun rid q =>
             if rid = rid0 ∧ q = p then none else s.stakes rid q } := by
  unfold refund at h
  split at h
  · exact Except.noConfusion h
  split at h
  · exact Except.noConfusion h
  split at h
  · exact Except.noConfusion h
  split at h
  · exact Except.noConfusion h
  simp only [Except.ok.injEq, Prod.mk.injEq] at h
  exact h.1.symm

/-- claim preserves the invariant. -/
theorem inv_claim (s s' : ContractState) (p : Addr) (rid0 : Nat) (tr : List Transfer)
    (hinv : Inv s) (h : claim s p rid0 = Except.ok (s', tr)) : Inv s' := by
  rw [claim_ok_shape s s' p rid0 tr h]
  exact inv_removeStake s rid0 p hinv

/-- refund preserves the invariant. -/
theorem inv_refund (s s' : ContractState) (p : Addr) (rid0 tick : Nat) (tr : List Transfer)
    (hinv : Inv s) (h : refund s p rid0 tick = Except.ok (s', tr)) : Inv s' := by
  rw [refund_ok_shape s s' p rid0 tick tr h]
  exact inv_removeStake s rid0 p hinv

/-- Every successful call preserves the invariant. -/
theorem inv_step (s s' : ContractState) (h : Step s s') (hinv : Inv s) : Inv s' := by
  cases h with
  | startStep a pc dl fl rid h1 => exact inv_start s s' a pc dl fl rid hinv h1
  | betStep p rid side amount tick tr h1 =>
    exact inv_bet s s' p rid side amount tick tr hinv h1
  | resolveStep a rid ac tick h1 => exact inv_resolve s s' a rid ac tick hinv h1
  | claimStep p rid tr h1 => exact inv_claim s s' p rid tr hinv h1
  | refundStep p rid tick tr h1 => exact inv_refund s s' p rid tick tr hinv h1

/-- Every reachable state satisfies the invariant. -/
theorem reachable_inv (s : ContractState) (h : Reachable s) : Inv s := by
  induction h with
  | init a => exact inv_init a
  | step s1 s1' hs hstep ih => exact inv_step s1 s1' hstep ih

/-- The invariant is preserved along any run of successful calls. -/
theorem steps_inv (s s' : ContractState) (hinv : Inv s) (hsteps : Steps s s') :
    Inv s' := by
  induction hsteps with
  | refl => exact hinv
  | tail hab hbc ih => exact inv_step _ _ hbc ih

/-- A successful call never clears the resolved flag of an existing
resolved round. -/
theorem step_preserves_resolved (s s' : ContractState) (rid : Nat) (r : Round)
    (hinv : Inv s) (hstep : Step s s') (hr : s.rounds rid = some r)
    (hres : r.resolved = true) :
    ∃ r', s'.rounds rid = some r' ∧ r'.resolved = true := by
  cases hstep with
  | startStep a pc dl fl rid1 h =>
    unfold startRound at h
    split at h
    · exact Except.noConfusion h
    split at h
    · exact Except.noConfusion h
    simp only [Except.ok.injEq, Prod.mk.injEq] at h
    obtain ⟨hs', -⟩ := h
    subst hs'
    refine ⟨r, ?_, hres⟩
    have hlt := (hinv.1 rid r hr).1
    show (if rid = s.nextRoundId then _ else s.rounds rid) = some r
    rw [if_neg (Nat.ne_of_lt hlt)]
    exact hr
  | betStep p rid1 side amount tick tr h =>
    unfold bet at h
    split at h
    · exact Except.noConfusion h
    split at h
    · exact Except.noConfusion h
    next round hfound =>
      split at h
      · exact Except.noConfusion h
      simp only [Except.ok.injEq, Prod.mk.injEq] at h
      obtain ⟨hs', -⟩ := h
      subst hs'
      by_cases hik : rid = rid1
      · subst hik
        rw [hr, Option.some.injEq] at hfound
        subst hfound
        refine ⟨addToPool r side amount, ?_, ?_⟩
        · show (if rid = rid then _ else _) = _
          rw [if_pos rfl]
        · cases side <;> simpa [addToPool] using hres
      · refine ⟨r, ?_, hres⟩
        show (if rid = rid1 then _ else s.rounds rid) = some r
        rw [if_neg hik]
        exact hr
  | resolveStep a rid1 ac tick h =>
    unfold resolveRound at h
    split at h
    · exact Except.noConfusion h
    split at h
    · exact Except.noConfusion h
    next round hfound =>
      split at h
      · exact Except.noConfusion h
      split at h
      · exact Except.noConfusion h
      next hnres =>
        simp only [Except.ok.injEq] at h
        subst h
        by_cases hik : rid = rid1
        · subst hik
          rw [hr, Option.some.injEq] at hfound
          subst hfound
          exact absurd hres hnres
        · refine ⟨r, ?_, hres⟩
          show (if rid = rid1 then _ else s.rounds rid) = some r
          rw [if_neg hik]
          exact hr
  | claimStep p rid1 tr h =>
    rw [claim_ok_shape s s' p rid1 tr h]
    exact ⟨r, hr, hres⟩
  | refundStep p rid1 tick tr h =>
    rw [refund_ok_shape s s' p rid1 tick tr h]
    exact ⟨r, hr, hres⟩

/-- Along any run of successful calls, a resolved round stays resolved. -/
theorem steps_resolved (s s' : ContractState) (rid : Nat) (r : Round)
    (hinv : Inv s) (hsteps : Steps s s') (hr : s.rounds rid = some r)
    (hres : r.resolved = true) :
    ∃ r', s'.rounds rid = some r' ∧ r'.resolved = true := by
  induction hsteps with
  | refl => exact ⟨r, hr, hres⟩
  | @tail b c hab hbc ih =>
    obtain ⟨r1, hr1, hres1⟩ := ih
    exact step_preserves_resolved b c rid r1 (steps_inv s b hinv hab) hbc hr1 hres1

/-- claim on an existing resolved round with no stake record fails with
AlreadyClaimed. -/
theorem claim_no_stake (s : ContractState) (p : Addr) (rid : Nat) (r : Round)
    (hr : s.rounds rid = some r) (hres : r.resolved = true)
    (hst : s.stakes rid p = none) :
    claim s p rid = Except.error (Fail.err Error.AlreadyClaimed) := by
  simp [claim, hr, hres, hst]

/-- claim on an existing unresolved round fails with NotResolved. -/
theorem claim_unresolved (s : ContractState) (p : Addr) (rid : Nat) (r : Round)
    (hr : s.rounds rid = some r) (hres : r.resolved = false) :
    claim s p rid = Except.error (Fail.err Error.NotResolved) := by
  simp [claim, hr, hres]

/-- refund on an existing resolved round fails with AlreadyResolved,
whatever the tick. -/
theorem refund_resolved (s : ContractState) (p : Addr) (rid t : Nat) (r : Round)
    (hr : s.rounds rid = some r) (hres : r.resolved = true) :
    refund s p rid t = Except.error (Fail.err Error.AlreadyResolved) := by
  simp [refund, hr, hres]

/-- refund past the grace window on an unresolved round with no stake
record fails with AlreadyClaimed. -/
theorem refund_no_stake (s : ContractState) (p : Addr) (rid t : Nat) (r : Round)
    (hr : s.rounds rid = some r) (hres : r.resolved = false)
    (ht : r.finality_ledger + GRACE_LEDGERS < t) (hst : s.stakes rid p = none) :
    refund s p rid t = Except.error (Fail.err Error.AlreadyClaimed) := by
  simp [refund, hr, hres, hst, Nat.not_le.mpr ht]

/-- refund inside the grace window on an unresolved round fails with
RefundNotAvailable. -/
theorem refund_too_soon (s : ContractState) (p : Addr) (rid t : Nat) (r : Round)
    (hr : s.rounds rid = some r) (hres : r.resolved = false)
    (ht : t ≤ r.finality_ledger + GRACE_LEDGERS) :
    refund s p rid t = Except.error (Fail.err Error.RefundNotAvailable) := by
  simp [refund, hr, hres, ht]

/-- Explicit success shape for refund. -/
theorem refund_ok_eq (s : ContractState) (p : Addr) (rid t : Nat) (r : Round) (st : Stake)
    (hr : s.rounds rid = some r) (hres : r.resolved = false)
    (ht : r.finality_ledger + GRACE_LEDGERS < t) (hst : s.stakes rid p = some st) :
    refund s p rid t = Except.ok
      ({ s with stakes := fun i q => if i = rid ∧ q = p then none else s.stakes i q }
        , [(contractAddress, p, st.amount)]) := by
  simp [refund, hr, hres, hst, Nat.not_le.mpr ht]

/-- Explicit success shape for claim by a winning stake. -/
theorem claim_winner_eq (s : ContractState) (p : Addr) (rid : Nat) (r : Round) (st : Stake)
    (hr : s.rounds rid = some r) (hres : r.resolved = true)
    (hst : s.stakes rid p = some st) (hside : st.side = r.winning_side)
    (hsp : sidePool r r.winning_side ≠ 0) :
    claim s p rid = Except.ok
      ({ s with stakes := fun i q => if i = rid ∧ q = p then none else s.stakes i q }
        , [(contractAddress, p,
            Int.tdiv (st.amount * (r.high_pool + r.low_pool)) (sidePool r r.winning_side))]) := by
  simp [claim, hr, hres, hst, hside, hsp]

/-- Explicit success shape for claim by a losing stake: no transfer. -/
theorem claim_loser_eq (s : ContractState) (p : Addr) (rid : Nat) (r : Round) (st : Stake)
    (hr : s.rounds rid = some r) (hres : r.resolved = true)
    (hst : s.stakes rid p = some st) (hside : st.side ≠ r.winning_side) :
    claim s p rid = Except.ok
      ({ s with stakes := fun i q => if i = rid ∧ q = p then none else s.stakes i q }
        , []) := by
  simp [claim, hr, hres, hst, hside]

/-- The state after starting the round of trace A is reachable. -/
theorem reach_aS1 : Reachable aS1 :=
  Reachable.step aS0 aS1 (Reachable.init 0)
    (Step.startStep aS0 aS1 0 1 1 2 0 rfl)

/-- The state after the bet of trace A is reachable. -/
theorem reach_aS2 : Reachable aS2 :=
  Reachable.step aS1 aS2 reach_aS1
    (Step.betStep aS1 aS2 1 0 Side.Higher 1 0 [(1, contractAddress, 1)] rfl)

/-- The resolved state of trace A is reachable. -/
theorem reach_aS3 : Reachable aS3 :=
  Reachable.step aS2 aS3 reach_aS2
    (Step.resolveStep aS2 aS3 0 0 5 2 rfl)

/-- Exact division identity summed over a list: W times the sum of the
Euclidean quotients of a * T by W is the sum of the a * T minus the sum
of their remainders. -/
theorem sum_ediv_mul_identity (T W : Int) (l : List Int) :
    W * (l.map (fun a => a * T / W)).sum =
      (l.map (fun a => a * T)).sum - (l.map (fun a => a * T % W)).sum := by
  induction l with
  | nil => simp
  | cons a l ih =>
    simp only [List.map_cons, List.sum_cons]
    rw [mul_add, ih]
    linarith [Int.ediv_add_emod (a * T) W]

/-- The summed remainders are non-negative. -/
theorem sum_emod_nonneg (T W : Int) (hW : W ≠ 0) (l : List Int) :
    0 ≤ (l.map (fun a => a * T % W)).sum := by
  induction l with
  | nil => simp
  | cons a l ih =>
    simp only [List.map_cons, List.sum_cons]
    linarith [Int.emod_nonneg (a * T) hW]

/-- The summed remainders are at most length * (W - 1). -/
theorem sum_emod_le (T W : Int) (hW : 0 < W) (l : List Int) :
    (l.map (fun a => a * T % W)).sum ≤ (l.length : Int) * (W - 1) := by
  induction l with
  | nil => simp
  | cons a l ih =>
    simp only [List.map_cons, List.sum_cons, List.length_cons]
    have h1 : a * T % W < W := Int.emod_lt_of_pos (a * T) hW
    push_cast
    nlinarith [ih, h1]

/-- A list of positive integers is at least as long as its sum. -/
theorem length_le_sum_of_pos :
    ∀ l : List Int, (∀ a ∈ l, 0 < a) → (l.length : Int) ≤ l.sum := by
  intro l
  induction l with
  | nil =>
    intro _
    simp
  | cons a l ih =>
    intro hpos
    have ha := hpos a (List.mem_cons_self a l)
    have ih' := ih (fun b hb => hpos b (List.mem_cons_of_mem a hb))
    simp only [List.length_cons, List.sum_cons]
    push_cast
    omega

/-- Multiplication distributes over the list sum. -/
theorem sum_map_mul_right (T : Int) (l : List Int) :
    (l.map (fun a => a * T)).sum = l.sum * T := by
  induction l with
  | nil => simp
  | cons a l ih =>
    simp only [List.map_cons, List.sum_cons, ih]
    ring

/-- Core rounding bound: when positive winner stakes sum exactly to the
winning pool W, the truncated payouts a * T / W add up to at least
T - (W - 1) and at most T. -/
theorem payout_sum_bounds (T W : Int) (l : List Int) (hW : 0 < W) (hT : 0 ≤ T)
    (hpos : ∀ a ∈ l, 0 < a) (hsum : l.sum = W) :
    T - (W - 1) ≤ (l.map (fun a => Int.tdiv (a * T) W)).sum ∧
      (l.map (fun a => Int.tdiv (a * T) W)).sum ≤ T := by
  have hmap : l.map (fun a => Int.tdiv (a * T) W) = l.map (fun a => a * T / W) := by
    apply List.map_congr_left
    intro a ha
    exact Int.tdiv_eq_ediv (mul_nonneg (le_of_lt (hpos a ha)) hT) (le_of_lt hW)
  rw [hmap]
  have hid := sum_ediv_mul_identity T W l
  rw [sum_map_mul_right T l, hsum] at hid
  have hR0 : 0 ≤ (l.map (fun a => a * T % W)).sum := sum_emod_nonneg T W (ne_of_gt hW) l
  have hR1 : (l.map (fun a => a * T % W)).sum ≤ (l.length : Int) * (W - 1) :=
    sum_emod_le T W hW l
  have hn : (l.length : Int) ≤ W := by
    have := length_le_sum_of_pos l hpos
    omega
  have hR2 : (l.map (fun a => a * T % W)).sum ≤ W * (W - 1) := by
    nlinarith
  constructor
  · have hstep : W * (T - (W - 1)) ≤ W * (l.map (fun a => a * T / W)).sum := by
      nlinarith
    exact le_of_mul_le_mul_left hstep hW
  · have hstep : W * (l.map (fun a => a * T / W)).sum ≤ W * T := by
      nlinarith
    exact le_of_mul_le_mul_left hstep hW

/-- Running claim over a duplicate-free list of players whose stakes are
all on the winning side transfers, in total, exactly the sum of the
payout formula applied to their stored stake amounts. -/
theorem claimAll_total :
    ∀ (ps : List Addr) (s : ContractState) (rid : Nat) (r : Round),
      s.rounds rid = some r → r.resolved = true →
      sidePool r r.winning_side ≠ 0 → ps.Nodup →
      (∀ p ∈ ps, ∃ st, s.stakes rid p = some st ∧ st.side = r.winning_side) →
      (claimAll ps s rid).2 = (ps.map (fun p => payoutOf r (stakeAmt s rid p))).sum := by
  intro ps
  induction ps with
  | nil =>
    intro s rid r _ _ _ _ _
    simp [claimAll]
  | cons p rest ih =>
    intro s rid r hr hres hsp hnd hstk
    obtain ⟨st, hst, hside⟩ := hstk p (List.mem_cons_self p rest)
    have hc := claim_winner_eq s p rid r st hr hres hst hside hsp
    have hnd' := List.nodup_cons.mp hnd
    have hrest :
        (claimAll rest
            { s with stakes := fun i q => if i = rid ∧ q = p then none else s.stakes i q }
            rid).2 =
          (rest.map (fun q => payoutOf r (stakeAmt s rid q))).sum := by
      have hfr : ∀ q ∈ rest,
          ({ s with stakes := fun i q2 => if i = rid ∧ q2 = p then none else s.stakes i q2 }
              : ContractState).stakes rid q = s.stakes rid q := by
        intro q hq
        have hqp : q ≠ p := fun hEq => hnd'.1 (hEq ▸ hq)
        show (if rid = rid ∧ q = p then none else s.stakes rid q) = s.stakes rid q
        rw [if_neg (by tauto)]
      have := ih
        { s with stakes := fun i q => if i = rid ∧ q = p then none else s.stakes i q }
        rid r hr hres hsp hnd'.2
        (fun q hq => by
          obtain ⟨stq, hstq, hsideq⟩ := hstk q (List.mem_cons_of_mem p hq)
          exact ⟨stq, by rw [hfr q hq]; exact hstq, hsideq⟩)
      rw [this]
      apply congrArg
      apply List.map_congr_left
      intro q hq
      unfold stakeAmt
      rw [hfr q hq]
    simp only [claimAll, hc, List.map_cons, List.sum_cons]
    rw [hrest]
    have hamt : stakeAmt s rid p = st.amount := by
      unfold stakeAmt
      rw [hst]
    rw [hamt]
    unfold payoutOf sumTransfers
    simp

/-- A successful claim implies its round exists and is resolved. -/
theorem claim_ok_facts (s s' : ContractState) (p : Addr) (rid : Nat)
    (tr : List Transfer) (h : claim s p rid = Except.ok (s', tr)) :
    ∃ r, s.rounds rid = some r ∧ r.resolved = true := by
  unfold claim at h
  split at h
  · exact Except.noConfusion h
  next round hfound =>
    split at h
    · exact Except.noConfusion h
    next hres =>
      exact ⟨round, hfound, by simpa using hres⟩

/-- A successful refund implies its round exists, is unresolved, and the
tick is strictly past the grace window. -/
theorem refund_ok_facts (s s' : ContractState) (p : Addr) (rid t : Nat)
    (tr : List Transfer) (h : refund s p rid t = Except.ok (s', tr)) :
    ∃ r, s.rounds rid = some r ∧ r.resolved = false ∧
      r.finality_ledger + GRACE_LEDGERS < t := by
  unfold refund at h
  split at h
  · exact Except.noConfusion h
  next round hfound =>
    split at h
    · exact Except.noConfusion h
    next hres =>
      split at h
      · exact Except.noConfusion h
      next ht =>
        exact ⟨round, hfound, by simpa using hres, by omega⟩

/-- C3 (amended): a stake is consumed at most once. A successful claim
deletes the stake record, after which a repeated claim fails with
AlreadyClaimed and a refund fails with AlreadyResolved (the round is
resolved, and that gate comes before the stake lookup). A successful
refund deletes the stake record, after which a claim fails with
NotResolved (the round is unresolved) and a repeated refund at any tick
at or past the first one fails with AlreadyClaimed. -/
theorem C3_single_consumption (s s' : ContractState) (p : Addr) (rid t t2 : Nat)
    (tr : List Transfer) :
    (claim s p rid = Except.ok (s', tr) →
      s'.stakes rid p = none ∧
      claim s' p rid = Except.error (Fail.err Error.AlreadyClaimed) ∧
      refund s' p rid t2 = Except.error (Fail.err Error.AlreadyResolved)) ∧
    (refund s p rid t = Except.ok (s', tr) →
      s'.stakes rid p = none ∧
      claim s' p rid = Except.error (Fail.err Error.NotResolved) ∧
      (t ≤ t2 → refund s' p rid t2 = Except.error (Fail.err Error.AlreadyClaimed))) := by
  constructor
  · intro h
    obtain ⟨r, hr, hres⟩ := claim_ok_facts s s' p rid tr h
    have hshape := claim_ok_shape s s' p rid tr h
    subst hshape
    refine ⟨by simp, ?_, ?_⟩
    · exact claim_no_stake _ p rid r hr hres (by simp)
    · exact refund_resolved _ p rid t2 r hr hres
  · intro h
    obtain ⟨r, hr, hres, ht⟩ := refund_ok_facts s s' p rid t tr h
    have hshape := refund_ok_shape s s' p rid t tr h
    subst hshape
    refine ⟨by simp, ?_, ?_⟩
    · exact claim_unresolved _ p rid r hr hres
    · intro ht2
      exact refund_no_stake _ p rid t2 r hr hres (by omega) (by simp)

/-- C3 witness: in trace A the claim succeeds, and afterwards the stake
is gone, a second claim fails with AlreadyClaimed and a refund fails
with AlreadyResolved. -/
theorem C3_witness :
    aS4.stakes 0 1 = none ∧
    claim aS4 1 0 = Except.error (Fail.err Error.AlreadyClaimed) ∧
    refund aS4 1 0 300 = Except.error (Fail.err Error.AlreadyResolved) :=
  (C3_single_consumption aS3 aS4 1 0 0 300 [(contractAddress, 1, 1)]).1 rfl

/-- C3 counterexample to the claim as stated: in trace A the claim for
(round 0, account 1) succeeds, and the following refund for the same
pair fails with AlreadyResolved, not with AlreadyClaimed. -/
theorem C3_counterexample :
    resultFail (claim aS3 1 0) = none ∧
    resultFail (refund aS4 1 0 200) = some (Fail.err Error.AlreadyResolved) ∧
    Fail.err Error.AlreadyResolved ≠ Fail.err Error.AlreadyClaimed := by
  refine ⟨rfl, rfl, by decide⟩

/-- C4 (amended): a second successful bet on a round where the account
already holds a stake adds the new amount to the stored amount but
overwrites the stored side with the side named by the new bet. -/
theorem C4_bet_updates_stake (s s' : ContractState) (p : Addr) (rid : Nat)
    (side : Side) (amount : Int) (t : Nat) (old : Stake) (tr : List Transfer)
    (hst : s.stakes rid p = some old)
    (hok : bet s p rid side amount t = Except.ok (s', tr)) :
    s'.stakes rid p = some { amount := old.amount + amount, side := side } := by
  unfold bet at hok
  split at hok
  · exact Except.noConfusion hok
  split at hok
  · exact Except.noConfusion hok
  next round hfound =>
    split at hok
    · exact Except.noConfusion hok
    simp only [Except.ok.injEq, Prod.mk.injEq] at hok
    obtain ⟨hs', -⟩ := hok
    subst hs'
    show (if rid = rid ∧ p = p then
        some { amount := upsertAmount (s.stakes rid p) amount, side := side }
      else s.stakes rid p) = some { amount := old.amount + amount, side := side }
    rw [if_pos ⟨rfl, rfl⟩]
    unfold upsertAmount
    rw [hst]

/-- C4 witness: in trace B the second bet (1 on Lower after 1 on Higher)
leaves the stake at amount 2 with side Lower. -/
theorem C4_witness :
    bS3.stakes 0 1 = some { amount := 2, side := Side.Lower } :=
  C4_bet_updates_stake bS2 bS3 1 0 Side.Lower 1 4 { amount := 1, side := Side.Higher }
    [(1, contractAddress, 1)] rfl rfl

/-- C4 counterexample to the claim as stated: in trace B the first bet
stores side Higher; after the second bet on the other side the stored
side is Lower, not the side chosen at the first bet. -/
theorem C4_counterexample :
    bS2.stakes 0 1 = some { amount := 1, side := Side.Higher } ∧
    bS3.stakes 0 1 = some { amount := 2, side := Side.Lower } ∧
    Side.Lower ≠ Side.Higher := by
  refine ⟨by decide, by decide, by decide⟩

/-- C5: from any reachable state, once a round is resolved every refund
for it fails with AlreadyResolved at every later point of any run of
successful calls, for any account and tick; and while an existing round
is unresolved every claim for it fails with NotResolved. -/
theorem C5_mutual_exclusivity (s s' : ContractState) (p : Addr) (rid t : Nat)
    (r : Round) (hreach : Reachable s) (hr : s.rounds rid = some r) :
    (r.resolved = true → Steps s s' →
      refund s' p rid t = Except.error (Fail.err Error.AlreadyResolved)) ∧
    (r.resolved = false →
      claim s p rid = Except.error (Fail.err Error.NotResolved)) := by
  constructor
  · intro hres hsteps
    obtain ⟨r', hr', hres'⟩ :=
      steps_resolved s s' rid r (reachable_inv s hreach) hsteps hr hres
    exact refund_resolved s' p rid t r' hr' hres'
  · intro hres
    exact claim_unresolved s p rid r hr hres

/-- C5 witness: in trace A, after resolution and one further successful
call (the claim), refund still fails with AlreadyResolved; and before
resolution, claim fails with NotResolved. -/
theorem C5_witness :
    refund aS4 1 0 500 = Except.error (Fail.err Error.AlreadyResolved) ∧
    claim aS1 1 0 = Except.error (Fail.err Error.NotResolved) :=
  ⟨(C5_mutual_exclusivity aS3 aS4 1 0 500
      { predicted_count := 1, deadline_ledger := 1, finality_ledger := 2,
        high_pool := 1, low_pool := 0, resolved := true,
        winning_side := Side.Higher, actual_count := 5 }
      reach_aS3 rfl).1 rfl
      (Relation.ReflTransGen.single
        (Step.claimStep aS3 aS4 1 0 [(contractAddress, 1, 1)] rfl)),
    (C5_mutual_exclusivity aS1 aS1 1 0 0
      { predicted_count := 1, deadline_ledger := 1, finality_ledger := 2,
        high_pool := 0, low_pool := 0, resolved := false,
        winning_side := Side.Lower, actual_count := 0 }
      reach_aS1 rfl).2 rfl⟩

/-- C6: resolving an existing unresolved round at or past finality
stores actual_count, marks the round resolved, and sets the winning side
to Higher exactly when actual_count exceeds predicted_count; a tie
resolves to Lower. -/
theorem C6_resolve_sets_outcome (s : ContractState) (a : Addr) (rid ac tick : Nat)
    (r : Round) (ha : a = s.admin) (hr : s.rounds rid = some r)
    (hres : r.resolved = false) (ht : r.finality_ledger ≤ tick) :
    ∃ s', resolveRound s a rid ac tick = Except.ok s' ∧
      s'.rounds rid = some
        { r with
            winning_side := if r.predicted_count < ac then Side.Higher else Side.Lower
            actual_count := ac
            resolved := true } ∧
      (ac = r.predicted_count →
        s'.rounds rid = some
          { r with winning_side := Side.Lower, actual_count := ac, resolved := true }) := by
  subst ha
  have hok : resolveRound s s.admin rid ac tick = Except.ok
      { s with
          rounds := fun i =>
            if i = rid then
              some { r with
                      winning_side :=
                        if r.predicted_count < ac then Side.Higher else Side.Lower
                      actual_count := ac
                      resolved := true }
            else s.rounds i } := by
    simp [resolveRound, hr, hres, Nat.not_lt.mpr ht]
  refine ⟨_, hok, ?_, ?_⟩
  · simp
  · intro hEq
    have hnlt : ¬ r.predicted_count < ac := by omega
    simp [hnlt]

/-- C6 witness: resolving trace A at tick 2 with actual_count 5 against
predicted_count 1 marks the round resolved with Higher winning. -/
theorem C6_witness :
    ∃ s', resolveRound aS2 0 0 5 2 = Except.ok s' ∧
      s'.rounds 0 = some
        { predicted_count := 1, deadline_ledger := 1, finality_ledger := 2,
          high_pool := 1, low_pool := 0, resolved := true,
          winning_side := if 1 < 5 then Side.Higher else Side.Lower,
          actual_count := 5 } ∧
      (5 = 1 →
        s'.rounds 0 = some
          { predicted_count := 1, deadline_ledger := 1, finality_ledger := 2,
            high_pool := 1, low_pool := 0, resolved := true,
            winning_side := Side.Lower, actual_count := 5 }) :=
  C6_resolve_sets_outcome aS2 0 0 5 2
    { predicted_count := 1, deadline_ledger := 1, finality_ledger := 2,
      high_pool := 1, low_pool := 0, resolved := false,
      winning_side := Side.Lower, actual_count := 0 }
    rfl rfl rfl (by decide)

/-- C7: on an existing unresolved round where the account holds a stake,
refund fails with RefundNotAvailable at every tick up to finality_ledger
+ GRACE_LEDGERS, and at any strictly later tick it succeeds, deletes the
stake and transfers back exactly the stored accumulated amount. -/
theorem C7_refund_window (s : ContractState) (p : Addr) (rid t : Nat)
    (r : Round) (st : Stake) (hr : s.rounds rid = some r)
    (hres : r.resolved = false) (hst : s.stakes rid p = some st) :
    (t ≤ r.finality_ledger + GRACE_LEDGERS →
      refund s p rid t = Except.error (Fail.err Error.RefundNotAvailable)) ∧
    (r.finality_ledger + GRACE_LEDGERS < t →
      ∃ s', refund s p rid t = Except.ok (s', [(contractAddress, p, st.amount)]) ∧
        s'.stakes rid p = none) := by
  constructor
  · intro ht
    exact refund_too_soon s p rid t r hr hres ht
  · intro ht
    refine ⟨_, refund_ok_eq s p rid t r st hr hres ht hst, ?_⟩
    simp

/-- C7 witness: in trace B (finality 6, grace 100) a refund at tick 100
fails with RefundNotAvailable and a refund at tick 107 returns exactly
the stored amount 2 and deletes the stake. -/
theorem C7_witness :
    refund bS3 1 0 100 = Except.error (Fail.err Error.RefundNotAvailable) ∧
    ∃ s', refund bS3 1 0 107 = Except.ok (s', [(contractAddress, 1, 2)]) ∧
      s'.stakes 0 1 = none :=
  ⟨(C7_refund_window bS3 1 0 100
      { predicted_count := 10, deadline_ledger := 5, finality_ledger := 6,
        high_pool := 1, low_pool := 1, resolved := false,
        winning_side := Side.Lower, actual_count := 0 }
      { amount := 2, side := Side.Lower } rfl rfl rfl).1 (by decide),
    (C7_refund_window bS3 1 0 107
      { predicted_count := 10, deadline_ledger := 5, finality_ledger := 6,
        high_pool := 1, low_pool := 1, resolved := false,
        winning_side := Side.Lower, actual_count := 0 }
      { amount := 2, side := Side.Lower } rfl rfl rfl).2 (by decide)⟩

/-- C8 (amended): an admin start_round call whose deadline_ledger is not
strictly below finality_ledger fails, but with TooEarly: the code has no
InvalidWindow error variant and reuses TooEarly for the bad window. No
round is created since the call returns an error. -/
theorem C8_bad_window (s : ContractState) (a : Addr) (pc dl fl : Nat)
    (ha : a = s.admin) (hw : fl ≤ dl) :
    startRound s a pc dl fl = Except.error (Fail.err Error.TooEarly) := by
  subst ha
  simp [startRound, hw]

/-- C8 witness: a concrete bad-window start_round fails with TooEarly. -/
theorem C8_witness :
    startRound (initState 3) 3 7 9 9 = Except.error (Fail.err Error.TooEarly) :=
  C8_bad_window (initState 3) 3 7 9 9 rfl (by decide)

/-- C8 counterexample to the claim as stated: with deadline_ledger equal
to finality_ledger the call fails with TooEarly. The contract error enum
has exactly ten variants and none is named InvalidWindow, so the call
cannot fail with InvalidWindow as the claim asserts. -/
theorem C8_counterexample :
    startRound (initState 0) 0 1 5 5 = Except.error (Fail.err Error.TooEarly) := rfl

/-- C9: for an existing round, a positive-amount bet fails with
BettingClosed exactly when the tick is strictly past deadline_ledger
(a bet at the deadline itself passes the window check), and an admin
resolve_round fails with TooEarly exactly when the tick is strictly
below finality_ledger. -/
theorem C9_window_enforcement (s : ContractState) (p a : Addr) (rid : Nat)
    (side : Side) (amount : Int) (t : Nat) (r : Round)
    (hr : s.rounds rid = some r) :
    (0 < amount →
      (bet s p rid side amount t = Except.error (Fail.err Error.BettingClosed) ↔
        r.deadline_ledger < t)) ∧
    (a = s.admin → ∀ ac : Nat,
      (resolveRound s a rid ac t = Except.error (Fail.err Error.TooEarly) ↔
        t < r.finality_ledger)) := by
  constructor
  · intro hamt
    have hamt' : ¬ amount ≤ 0 := not_le.mpr hamt
    by_cases hdl : r.deadline_ledger < t
    · simp [bet, hr, hamt', hdl]
    · simp [bet, hr, hamt', hdl]
  · intro ha ac
    subst ha
    by_cases ht : t < r.finality_ledger
    · simp [resolveRound, hr, ht]
    · by_cases hres : r.resolved
      · simp [resolveRound, hr, ht, hres]
      · simp [resolveRound, hr, ht, hres]

/-- C9 witness: in trace A (deadline 1, finality 2) a bet at tick 2
fails with BettingClosed and a resolve at tick 1 fails with TooEarly. -/
theorem C9_witness :
    bet aS1 1 0 Side.Higher 1 2 = Except.error (Fail.err Error.BettingClosed) ∧
    resolveRound aS1 0 0 7 1 = Except.error (Fail.err Error.TooEarly) :=
  ⟨((C9_window_enforcement aS1 1 0 0 Side.Higher 1 2
      { predicted_count := 1, deadline_ledger := 1, finality_ledger := 2,
        high_pool := 0, low_pool := 0, resolved := false,
        winning_side := Side.Lower, actual_count := 0 }
      rfl).1 (by decide)).mpr (by decide),
    ((C9_window_enforcement aS1 1 0 0 Side.Higher 1 1
      { predicted_count := 1, deadline_ledger := 1, finality_ledger := 2,
        high_pool := 0, low_pool := 0, resolved := false,
        winning_side := Side.Lower, actual_count := 0 }
      rfl).2 rfl 7).mpr (by decide)⟩

/-- C1: from any reachable state, a claim by an account whose stake side
matches the winning side of a resolved round succeeds and transfers
exactly the floor of stake.amount * (high_pool + low_pool) divided by
the winning side pool; the code's truncating division agrees with floor
division because numerator and divisor are non-negative in every
reachable state. -/
theorem C1_claim_payout (s : ContractState) (p : Addr) (rid : Nat) (r : Round)
    (st : Stake) (hreach : Reachable s) (hr : s.rounds rid = some r)
    (hres : r.resolved = true) (hst : s.stakes rid p = some st)
    (hside : st.side = r.winning_side) :
    ∃ s', claim s p rid = Except.ok
      (s', [(contractAddress, p,
        Int.fdiv (st.amount * (r.high_pool + r.low_pool))
          (sidePool r r.winning_side))]) := by
  have hinv := reachable_inv s hreach
  obtain ⟨r2, hr2, hpos, hsp⟩ := hinv.2 rid p st hst
  rw [hr, Option.some.injEq] at hr2
  subst hr2
  rw [hside] at hsp
  have hnz : sidePool r r.winning_side ≠ 0 := ne_of_gt hsp
  refine ⟨{ s with stakes := fun i q =>
    if i = rid ∧ q = p then none else s.stakes i q }, ?_⟩
  rw [claim_winner_eq s p rid r st hr hres hst hside hnz]
  have h1 := hinv.1 rid r hr
  have hnum : 0 ≤ st.amount * (r.high_pool + r.low_pool) :=
    mul_nonneg (le_of_lt hpos) (by linarith [h1.2.1, h1.2.2])
  rw [Int.tdiv_eq_ediv hnum (le_of_lt hsp), Int.fdiv_eq_ediv _ (le_of_lt hsp)]

/-- C1 witness: in trace A the winning claim transfers exactly
floor(1 * (1 + 0) / 1) = 1 to the winner. -/
theorem C1_witness :
    ∃ s', claim aS3 1 0 = Except.ok
      (s', [(contractAddress, 1, Int.fdiv ((1 : Int) * (1 + 0)) 1)]) :=
  C1_claim_payout aS3 1 0
    { predicted_count := 1, deadline_ledger := 1, finality_ledger := 2,
      high_pool := 1, low_pool := 0, resolved := true,
      winning_side := Side.Higher, actual_count := 5 }
    { amount := 1, side := Side.Higher }
    reach_aS3 rfl rfl rfl rfl

/-- C2 (amended): for a resolved round with non-negative pools and a
positive winning pool, and any duplicate-free set of accounts whose
stakes all sit on the winning side with positive amounts summing
exactly to the winning side pool, running all their claims transfers in
total at least high_pool + low_pool - (winning pool - 1) and at most
high_pool + low_pool. The sum hypothesis is what the claim as stated
silently assumes; it holds when no account bet on both sides. -/
theorem C2_payout_conservation (s : ContractState) (rid : Nat) (r : Round)
    (ps : List Addr) (hr : s.rounds rid = some r) (hres : r.resolved = true)
    (hhp : 0 ≤ r.high_pool) (hlp : 0 ≤ r.low_pool)
    (hW : 0 < sidePool r r.winning_side) (hnd : ps.Nodup)
    (hstk : ∀ p ∈ ps, ∃ st, s.stakes rid p = some st ∧
      st.side = r.winning_side ∧ 0 < st.amount)
    (hsum : (ps.map (stakeAmt s rid)).sum = sidePool r r.winning_side) :
    r.high_pool + r.low_pool - (sidePool r r.winning_side - 1) ≤
        (claimAll ps s rid).2 ∧
      (claimAll ps s rid).2 ≤ r.high_pool + r.low_pool := by
  have htot := claimAll_total ps s rid r hr hres (ne_of_gt hW) hnd
    (fun p hp => by
      obtain ⟨st, h1, h2, -⟩ := hstk p hp
      exact ⟨st, h1, h2⟩)
  rw [htot]
  have hposel : ∀ a ∈ ps.map (stakeAmt s rid), 0 < a := by
    intro a ha
    obtain ⟨p, hp, hpa⟩ := List.mem_map.mp ha
    obtain ⟨st, h1, -, h3⟩ := hstk p hp
    have h4 : stakeAmt s rid p = st.amount := by
      unfold stakeAmt
      rw [h1]
    rw [← hpa, h4]
    exact h3
  have hbounds := payout_sum_bounds (r.high_pool + r.low_pool)
    (sidePool r r.winning_side) (ps.map (stakeAmt s rid)) hW (by linarith)
    hposel hsum
  rw [List.map_map] at hbounds
  have hmaps : (ps.map (fun p => payoutOf r (stakeAmt s rid p))) =
      (ps.map ((fun a => Int.tdiv (a * (r.high_pool + r.low_pool))
        (sidePool r r.winning_side)) ∘ stakeAmt s rid)) := rfl
  rw [hmaps]
  exact ⟨hbounds.1, hbounds.2⟩

/-- C2 witness: in trace A the single winner holds the whole winning
pool, and the claimed total 1 lies within both conservation bounds for
high_pool + low_pool = 1 + 0. -/
theorem C2_witness :
    (1 : Int) + 0 - (1 - 1) ≤ (claimAll [1] aS3 0).2 ∧
      (claimAll [1] aS3 0).2 ≤ 1 + 0 :=
  C2_payout_conservation aS3 0
    { predicted_count := 1, deadline_ledger := 1, finality_ledger := 2,
      high_pool := 1, low_pool := 0, resolved := true,
      winning_side := Side.Higher, actual_count := 5 }
    [1] rfl rfl (by decide) (by decide) (by decide) (by decide)
    (fun p hp => by
      have hp1 : p = 1 := by simpa using hp
      subst hp1
      exact ⟨{ amount := 1, side := Side.Higher }, by decide, by decide, by decide⟩)
    (by decide)

/-- C2 counterexample to the claim as stated: in trace B one account bet
1 on Higher and then 1 on Lower, so its stake records amount 2 on the
winning Lower side while low_pool is only 1. Its single successful
claim transfers 2 * 2 / 1 = 4, which exceeds high_pool + low_pool = 2,
violating the asserted upper bound. -/
theorem C2_counterexample :
    bS4.rounds 0 = some
      { predicted_count := 10, deadline_ledger := 5, finality_ledger := 6,
        high_pool := 1, low_pool := 1, resolved := true,
        winning_side := Side.Lower, actual_count := 3 } ∧
    (claimAll [1] bS4 0).2 = 4 ∧
    ¬ (claimAll [1] bS4 0).2 ≤ (1 : Int) + 1 := by
  refine ⟨by decide, by decide, by decide⟩

/-- C10: in every reachable state, a stake record's side pool in its
round is strictly positive, so the claim payout division never divides
by zero: claim can never return the division-by-zero trap. -/
theorem C10_no_div_by_zero (s : ContractState) (p : Addr) (rid : Nat)
    (hreach : Reachable s) :
    (∀ st r, s.stakes rid p = some st → s.rounds rid = some r →
      0 < sidePool r st.side) ∧
    claim s p rid ≠ Except.error Fail.divByZero := by
  have hinv := reachable_inv s hreach
  have hpart1 : ∀ st r, s.stakes rid p = some st → s.rounds rid = some r →
      0 < sidePool r st.side := by
    intro st r hst hr
    obtain ⟨r2, hr2, -, hsp⟩ := hinv.2 rid p st hst
    rw [hr, Option.some.injEq] at hr2
    subst hr2
    exact hsp
  refine ⟨hpart1, ?_⟩
  cases hrounds : s.rounds rid with
  | none => simp [claim, hrounds]
  | some r =>
    cases hres : r.resolved with
    | false =>
      rw [claim_unresolved s p rid r hrounds hres]
      simp
    | true =>
      cases hstake : s.stakes rid p with
      | none =>
        rw [claim_no_stake s p rid r hrounds hres hstake]
        simp
      | some st =>
        by_cases hside : st.side = r.winning_side
        · have hsp := hpart1 st r hstake hrounds
          rw [hside] at hsp
          rw [claim_winner_eq s p rid r st hrounds hres hstake hside (ne_of_gt hsp)]
          simp
        · rw [claim_loser_eq s p rid r st hrounds hres hstake hside]
          simp

/-- C10 witness: in the reachable resolved state of trace A the claim
does not trap on a zero divisor. -/
theorem C10_witness : claim aS3 1 0 ≠ Except.error Fail.divByZero :=
  (C10_no_div_by_zero aS3 1 0 reach_aS3).2

end KalePrediction
